import Mathlib

/-!
Formal model of the Letrador lyrics application (src/index.tsx): the karaoke
scroll synchronizer, the favorites store with its persisted JSON encoding,
and the lookup response handling, with proofs of the specified properties.
-/

namespace Letrador

/-- A rendered lyrics line element, as read by the tick callback from the
container's children: its `offsetTop` and `offsetHeight`. -/
structure Line where
  offsetTop : ℤ
  offsetHeight : ℤ
deriving DecidableEq

/-- The scrollable lyrics container (`lyricsContainerRef.current`): its
`scrollHeight`, `clientHeight`, and rendered line children. -/
structure ScrollEnv where
  scrollHeight : ℤ
  clientHeight : ℤ
  lines : List Line
deriving DecidableEq

/-- The scroll-related component state: `isScrolling`, the container's
`scrollTop`, the `scrollSpeed` slider value, and `currentLineIndex`
(the value `-1` encodes "no active line"). -/
structure ScrollState where
  isScrolling : Bool
  scrollTop : ℤ
  scrollSpeed : ℤ
  currentLineIndex : ℤ
deriving DecidableEq

/-- Period of the scroll interval timer: `150 - scrollSpeed * 12` ms
(src/index.tsx line 92). -/
def tickPeriod (speed : ℤ) : ℤ := 150 - speed * 12

/-- The active-zone test of the tick body: whether
`line.offsetTop + line.offsetHeight > scrollTop + clientHeight / 4`.
The DOM computes `clientHeight / 4` in exact real (floating-point)
division, modelled in `ℚ`. -/
def hits (clientHeight top : ℤ) (l : Line) : Bool :=
  decide ((l.offsetTop + l.offsetHeight : ℚ) > (top : ℚ) + (clientHeight : ℚ) / 4)

/-- JavaScript `Array.prototype.findIndex`: index of the first element
satisfying `p`, or `-1` when none does. -/
def findIndex {α : Type} (p : α → Bool) : List α → ℤ
  | [] => -1
  | l :: ls => if p l then 0 else if findIndex p ls = -1 then -1 else findIndex p ls + 1

/-- The `newCurrentIndex` a tick computes at scroll position `top`: the first
line whose bottom edge passes the active zone, falling back to the last line
when the scan fails and lines exist (src/index.tsx lines 75-83). -/
def newCurrentIndex (env : ScrollEnv) (top : ℤ) : ℤ :=
  if findIndex (hits env.clientHeight top) env.lines = -1 ∧ env.lines.length > 0
  then (env.lines.length : ℤ) - 1
  else findIndex (hits env.clientHeight top) env.lines

/-- One firing of the scroll interval callback (src/index.tsx lines 62-92):
stop at the boundary, otherwise advance `scrollTop` by one and update the
active line index when the newly computed index is valid and differs. -/
def tick (env : ScrollEnv) (s : ScrollState) : ScrollState :=
  if s.scrollTop ≥ env.scrollHeight - env.clientHeight then
    { s with isScrolling := false, currentLineIndex := -1 }
  else
    { s with
      scrollTop := s.scrollTop + 1
      currentLineIndex :=
        if newCurrentIndex env (s.scrollTop + 1) ≠ -1 ∧
            newCurrentIndex env (s.scrollTop + 1) ≠ s.currentLineIndex then
          newCurrentIndex env (s.scrollTop + 1)
        else s.currentLineIndex }

/-- Iterated scroll ticks. -/
def tickN (env : ScrollEnv) : ℕ → ScrollState → ScrollState
  | 0, s => s
  | n + 1, s => tick env (tickN env n s)

/-- A saved favorite: the `Favorite` interface of src/index.tsx. -/
structure Favorite where
  term : String
  lyrics : String
deriving DecidableEq

/-- The `isFavorite` membership test (src/index.tsx line 180):
`favorites.some(fav => fav.term === term)`. -/
def isFavorite (favorites : List Favorite) (term : String) : Bool :=
  favorites.any (fun fav => fav.term == term)

/-- The `toggleFavorite` handler (src/index.tsx lines 182-189): a no-op
without a displayed term and lyrics; otherwise it filters out every entry
with the displayed term when present, and appends `{term, lyrics}` when
absent. -/
def toggleFavorite (searchTerm lyrics : String) (favorites : List Favorite) :
    List Favorite :=
  if searchTerm = "" ∨ lyrics = "" then favorites
  else if isFavorite favorites searchTerm then
    favorites.filter (fun fav => fav.term != searchTerm)
  else
    favorites ++ [⟨searchTerm, lyrics⟩]

/-- The `removeFavorite` handler (src/index.tsx lines 191-193). -/
def removeFavorite (termToRemove : String) (favorites : List Favorite) :
    List Favorite :=
  favorites.filter (fun fav => fav.term != termToRemove)

/-- JavaScript `String.prototype.trim` on the character-list model of
strings: whitespace removed from both ends. -/
def jsTrim (s : List Char) : List Char :=
  ((s.dropWhile Char.isWhitespace).reverse.dropWhile Char.isWhitespace).reverse

/-- The component state relevant to the modelled handlers: the current
query, displayed lyrics, error text, the favorites collection, the scroll
state and the rendered layout of the current lyrics. (Fields the modelled
handlers never read — view, sources, loading and config flags — are
omitted.) -/
structure AppState where
  searchTerm : String
  lyrics : String
  error : String
  favorites : List Favorite
  scroll : ScrollState
  env : ScrollEnv

/-- The component state right after mount: empty query and lyrics, the
favorites loaded from storage, idle scroll at speed 3 with no active line,
and no rendered lyrics lines. -/
def initState (favorites : List Favorite) : AppState :=
  { searchTerm := ""
    lyrics := ""
    error := ""
    favorites := favorites
    scroll := { isScrolling := false, scrollTop := 0, scrollSpeed := 3, currentLineIndex := -1 }
    env := { scrollHeight := 0, clientHeight := 0, lines := [] } }

/-- The synchronous part of `handleSearch` up to issuing the remote request
(src/index.tsx lines 105-122): a blank query only sets an error message;
otherwise scrolling stops, the scroll offset resets to 0, previous result
state is cleared (so the rendered line layout empties) and the active line
index is cleared. -/
def handleSearchStart (st : AppState) : AppState :=
  if jsTrim st.searchTerm.data = [] then
    { st with error := "Por favor, digite o nome da música e do artista." }
  else
    { st with
      error := ""
      lyrics := ""
      scroll := { st.scroll with isScrolling := false, scrollTop := 0, currentLineIndex := -1 }
      env := { st.env with lines := [] } }

/-- Applying a successful lookup (src/index.tsx line 159) together with the
re-render it triggers: the lyrics text is replaced, the browser lays the new
content out as `newEnv`, and the scroll effect re-runs on its `lyrics`
dependency. The code applies the awaited result with no guard: only when
scrolling is off does the effect's idle branch clear the active line
(src/index.tsx line 95); while scrolling, the interval restarts and the
stored index is left untouched. -/
def applyLyrics (newLyrics : String) (newEnv : ScrollEnv) (st : AppState) : AppState :=
  { st with
    lyrics := newLyrics
    env := newEnv
    scroll :=
      if st.scroll.isScrolling then st.scroll
      else { st.scroll with currentLineIndex := -1 } }

/-- The `viewFavorite` handler (src/index.tsx lines 195-207) together with
the re-render it triggers: shows the stored term and lyrics (laid out as
`newEnv`), clears the error, stops scrolling, clears the active line and
resets the scroll offset. -/
def viewFavorite (fav : Favorite) (newEnv : ScrollEnv) (st : AppState) : AppState :=
  { st with
    searchTerm := fav.term
    lyrics := fav.lyrics
    error := ""
    scroll := { st.scroll with isScrolling := false, scrollTop := 0, currentLineIndex := -1 }
    env := newEnv }

/-- The `toggleKaraoke` handler (src/index.tsx lines 209-212) combined with
the scroll effect re-run it triggers: a no-op without lyrics; toggling off
clears the active line via the effect's idle branch (line 95); toggling on
starts the interval without touching the index. -/
def toggleKaraoke (st : AppState) : AppState :=
  if st.lyrics = "" then st
  else if st.scroll.isScrolling then
    { st with scroll := { st.scroll with isScrolling := false, currentLineIndex := -1 } }
  else
    { st with scroll := { st.scroll with isScrolling := true } }

/-- The speed slider change handler (src/index.tsx line 293). -/
def setSpeed (speed : ℤ) (st : AppState) : AppState :=
  { st with scroll := { st.scroll with scrollSpeed := speed } }

/-- States the component can reach from mount through its event handlers,
timer ticks and lookup results. Ticks fire only while scrolling. An
in-flight lookup result may land at any time: `handleSearch` applies the
awaited response without checking that it still corresponds to the active
query or that scrolling is still off. -/
inductive Reachable : AppState → Prop
  | init (favs : List Favorite) : Reachable (initState favs)
  | stepTick (st : AppState) (h : Reachable st) (hs : st.scroll.isScrolling = true) :
      Reachable { st with scroll := tick st.env st.scroll }
  | searchStart (st : AppState) (h : Reachable st) : Reachable (handleSearchStart st)
  | lyricsArrive (st : AppState) (newLyrics : String) (newEnv : ScrollEnv)
      (h : Reachable st) :
      Reachable (applyLyrics newLyrics newEnv st)
  | favOpen (st : AppState) (fav : Favorite) (newEnv : ScrollEnv) (h : Reachable st) :
      Reachable (viewFavorite fav newEnv st)
  | karaoke (st : AppState) (h : Reachable st) : Reachable (toggleKaraoke st)
  | speed (st : AppState) (v : ℤ) (h : Reachable st) : Reachable (setSpeed v st)
  | editTerm (st : AppState) (q : String) (h : Reachable st) :
      Reachable { st with searchTerm := q }
  | favToggle (st : AppState) (h : Reachable st) :
      Reachable { st with favorites := toggleFavorite st.searchTerm st.lyrics st.favorites }
  | favRemove (st : AppState) (t : String) (h : Reachable st) :
      Reachable { st with favorites := removeFavorite t st.favorites }

/-- Stale-arrival scenario, step 1: a search is submitted (the lookup is now
in flight), a favorite is opened while it loads, and karaoke is started on
that favorite (three rendered lines). -/
def preTickState : AppState :=
  toggleKaraoke (viewFavorite ⟨"t", "x"⟩ ⟨100, 8, [⟨0, 1⟩, ⟨1, 1⟩, ⟨2, 30⟩]⟩
    (handleSearchStart { initState [] with searchTerm := "a" }))

/-- Stale-arrival scenario, step 2: one tick fires and highlights the third
line (index 2). -/
def tickedState : AppState :=
  { preTickState with scroll := tick preTickState.env preTickState.scroll }

/-- Stale-arrival scenario, step 3: the in-flight search result lands while
scrolling, re-rendering as a single line; the effect's idle branch does not
run, so the stale index 2 is retained against the one-line layout. -/
def staleArrivalState : AppState :=
  applyLyrics "z" ⟨20, 8, [⟨0, 10⟩]⟩ tickedState

/-- Lowercase hexadecimal digit, as emitted by JSON.stringify's `\u00xx`
escapes for control characters. -/
def hexDigit (n : ℕ) : Char :=
  if n < 10 then Char.ofNat (48 + n) else Char.ofNat (87 + n)

/-- JSON.stringify's escaping of one character inside a string literal
(ECMA-262 QuoteJSONString): two-character escapes for the quote, backslash,
backspace, form feed, newline, carriage return and tab; `\u00xx` for other
control characters; every other character literally. -/
def encodeChar (c : Char) : List Char :=
  if c = '"' then ['\\', '"']
  else if c = '\\' then ['\\', '\\']
  else if c = '\x08' then ['\\', 'b']
  else if c = '\x0c' then ['\\', 'f']
  else if c = '\n' then ['\\', 'n']
  else if c = '\r' then ['\\', 'r']
  else if c = '\t' then ['\\', 't']
  else if c.toNat < 32 then
    ['\\', 'u', '0', '0', hexDigit (c.toNat / 16), hexDigit (c.toNat % 16)]
  else [c]

/-- A JSON string literal: quote, escaped content, quote. -/
def encodeString (s : String) : List Char :=
  '"' :: (s.data.map encodeChar).flatten ++ ['"']

/-- The JSON encoding of one favorite; key order follows the object literal
`{ term: searchTerm, lyrics }` of src/index.tsx line 187. -/
def encodeFavorite (f : Favorite) : List Char :=
  ['{', '"', 't', 'e', 'r', 'm', '"', ':'] ++ encodeString f.term
    ++ [','] ++ ['"', 'l', 'y', 'r', 'i', 'c', 's', '"', ':'] ++ encodeString f.lyrics
    ++ ['}']

/-- Comma-separated encodings of the favorites. -/
def encodeFavoritesBody : List Favorite → List Char
  | [] => []
  | [f] => encodeFavorite f
  | f :: fs => encodeFavorite f ++ ',' :: encodeFavoritesBody fs

/-- `JSON.stringify(favorites)` (src/index.tsx line 51): the value written
to the single `lyrics-favorites` storage entry. -/
def saveAll (favorites : List Favorite) : List Char :=
  '[' :: encodeFavoritesBody favorites ++ [']']

/-- Value of one hexadecimal digit, as JSON.parse reads `\uXXXX` escapes. -/
def parseHexDigit (c : Char) : Option ℕ :=
  if '0' ≤ c ∧ c ≤ '9' then some (c.toNat - 48)
  else if 'a' ≤ c ∧ c ≤ 'f' then some (c.toNat - 87)
  else if 'A' ≤ c ∧ c ≤ 'F' then some (c.toNat - 55)
  else none

/-- The single-character escapes JSON.parse accepts after a backslash. -/
def decodeEscape (c : Char) : Option Char :=
  if c = '"' then some '"'
  else if c = '\\' then some '\\'
  else if c = '/' then some '/'
  else if c = 'b' then some '\x08'
  else if c = 'f' then some '\x0c'
  else if c = 'n' then some '\n'
  else if c = 'r' then some '\r'
  else if c = 't' then some '\t'
  else none

/-- JSON string-literal body parser: consumes input up to the closing quote,
decoding escapes, and returns the decoded content with the remaining
input. -/
def parseStringBody : List Char → Option (List Char × List Char)
  | [] => none
  | c :: rest =>
    if c = '"' then some ([], rest)
    else if c = '\\' then
      match rest with
      | [] => none
      | e :: rest2 =>
        if e = 'u' then
          match rest2 with
          | h1 :: h2 :: h3 :: h4 :: rest3 =>
            match parseHexDigit h1, parseHexDigit h2, parseHexDigit h3, parseHexDigit h4 with
            | some d1, some d2, some d3, some d4 =>
              match parseStringBody rest3 with
              | some (s, r) =>
                some (Char.ofNat (((d1 * 16 + d2) * 16 + d3) * 16 + d4) :: s, r)
              | none => none
            | _, _, _, _ => none
          | _ => none
        else
          match decodeEscape e with
          | some ec =>
            match parseStringBody rest2 with
            | some (s, r) => some (ec :: s, r)
            | none => none
          | none => none
    else
      match parseStringBody rest with
      | some (s, r) => some (c :: s, r)
      | none => none

/-- JSON string-literal parser: an opening quote, then the body. -/
def parseJsonString : List Char → Option (List Char × List Char)
  | '"' :: rest => parseStringBody rest
  | _ => none

/-- Matches an expected literal character sequence at the head of the input,
returning the remainder. -/
def expectChars : List Char → List Char → Option (List Char)
  | [], input => some input
  | _ :: _, [] => none
  | e :: es, c :: cs => if c = e then expectChars es cs else none

/-- Parses one favorite object of the persisted layout. -/
def parseFavorite (input : List Char) : Option (Favorite × List Char) :=
  match expectChars ['{', '"', 't', 'e', 'r', 'm', '"', ':'] input with
  | none => none
  | some i1 =>
    match parseJsonString i1 with
    | none => none
    | some (t, i2) =>
      match expectChars [',', '"', 'l', 'y', 'r', 'i', 'c', 's', '"', ':'] i2 with
      | none => none
      | some i3 =>
        match parseJsonString i3 with
        | none => none
        | some (l, i4) =>
          match expectChars ['}'] i4 with
          | none => none
          | some i5 => some (⟨⟨t⟩, ⟨l⟩⟩, i5)

/-- Parses a nonempty comma-separated sequence of favorite objects; `fuel`
bounds the element count. -/
def parseFavoritesAux : ℕ → List Char → Option (List Favorite × List Char)
  | 0, _ => none
  | fuel + 1, input =>
    match parseFavorite input with
    | none => none
    | some (f, r) =>
      match r with
      | ',' :: r2 =>
        match parseFavoritesAux fuel r2 with
        | some (fs, r3) => some (f :: fs, r3)
        | none => none
      | _ => some ([f], r)

/-- `JSON.parse` on the persisted entry, restricted to the canonical
array-of-favorites layout the application writes. -/
def parseFavorites (input : List Char) : Option (List Favorite) :=
  match input with
  | '[' :: rest =>
    if rest = [']'] then some []
    else
      match parseFavoritesAux rest.length rest with
      | some (fs, [']']) => some fs
      | _ => none
  | _ => none

/-- The startup load (src/index.tsx lines 39-47): a missing entry or a
failed parse soft-fails to no favorites. -/
def loadAll (stored : Option (List Char)) : List Favorite :=
  match stored with
  | none => []
  | some s =>
    match parseFavorites s with
    | some favs => favs
    | none => []

/-- A parsed JSON value, as `JSON.parse` produces for the remote reply. -/
inductive JVal where
  | jnull
  | jbool (b : Bool)
  | jnum (n : ℤ)
  | jstr (s : String)
  | jarr (elems : List JVal)
  | jobj (fields : List (String × JVal))

/-- Property access `value.key` as JavaScript performs it on a parsed JSON
value: an object yields the named property (the last duplicate wins, as
`JSON.parse` keeps the last), any other non-null value yields `undefined`
(`none`); access on `null` throws and is handled in `processResult`. -/
def getField (v : JVal) (key : String) : Option JVal :=
  match v with
  | .jobj fields => (fields.reverse.find? (fun p => p.1 == key)).map (fun p => p.2)
  | _ => none

/-- Whether a JSON value is `null`. -/
def isNull : JVal → Bool
  | .jnull => true
  | _ => false

/-- JavaScript truthiness of an accessed field: `undefined` (absent),
`null`, `0`, `false` and the empty string are falsy; objects and arrays are
truthy. -/
def truthy : Option JVal → Bool
  | none => false
  | some .jnull => false
  | some (.jbool b) => b
  | some (.jnum n) => n != 0
  | some (.jstr s) => s != ""
  | some (.jarr _) => true
  | some (.jobj _) => true

/-- The user-facing fallback message naming the query (src/index.tsx
line 157). -/
def notFoundMessage (searchTerm : String) : String :=
  "Não foi possível encontrar a letra para \"" ++ searchTerm
    ++ "\". Por favor, verifique o nome e tente novamente."

/-- Outcome of handling the parsed lookup reply: lyrics displayed, the error
display (`setError`), or an exception into the generic catch branch. -/
inductive LookupOutcome where
  | Found (lyrics : JVal)
  | NotFound (message : JVal)
  | Thrown

/-- Handling of the parsed reply (src/index.tsx lines 154-160): a `null`
reply throws at the property access (landing in the generic catch branch);
otherwise `if (result.error || !result.lyrics)` displays
`result.error || <fallback naming the query>` as the error, and the
remaining case displays `result.lyrics`. -/
def processResult (searchTerm : String) (result : JVal) : LookupOutcome :=
  if isNull result then .Thrown
  else if truthy (getField result "error") || !truthy (getField result "lyrics") then
    .NotFound (if truthy (getField result "error")
      then (getField result "error").getD .jnull
      else .jstr (notFoundMessage searchTerm))
  else .Found ((getField result "lyrics").getD .jnull)

/-- JavaScript clamp of a `substring` index into `[0, length]`. -/
def jsClamp (len v : ℤ) : ℤ := max 0 (min v len)

/-- JavaScript `String.prototype.substring` on the character-list model:
indices are clamped to the string bounds and swapped when start exceeds
end. -/
def jsSubstring (s : List Char) (start finish : ℤ) : List Char :=
  (s.drop (min (jsClamp s.length start) (jsClamp s.length finish)).toNat).take
    ((max (jsClamp s.length start) (jsClamp s.length finish)
      - min (jsClamp s.length start) (jsClamp s.length finish)).toNat)

/-- JavaScript `String.prototype.startsWith` on the model. -/
def jsStartsWith (pat s : List Char) : Bool :=
  s.take pat.length == pat

/-- The fence marker `handleSearch` tests for: three backticks followed by
`json` (src/index.tsx line 150). -/
def fenceMarker : List Char :=
  [Char.ofNat 96, Char.ofNat 96, Char.ofNat 96, 'j', 's', 'o', 'n']

/-- The code-fence handling of `handleSearch` (src/index.tsx lines 148-152),
applied to the trimmed reply text: when it starts with the marker, keep
`substring(7, length − 3)` re-trimmed; otherwise keep the text as is. The
result is what `JSON.parse` receives. -/
def stripFence (resultText : List Char) : List Char :=
  if jsStartsWith fenceMarker resultText then
    jsTrim (jsSubstring resultText 7 (resultText.length - 3))
  else resultText

/-- C2: for every speed `s` in `[1,10]` the scroll tick period is
`150 − s × 12` time units (so `138` at `s = 1` and `30` at `s = 10`), is
strictly positive, and is strictly decreasing as `s` increases. -/
theorem tickPeriod_correct :
    tickPeriod 1 = 138 ∧ tickPeriod 10 = 30 ∧
    ∀ s : ℤ, 1 ≤ s → s ≤ 10 →
      tickPeriod s = 150 - s * 12 ∧ 0 < tickPeriod s ∧
      ∀ t : ℤ, s < t → t ≤ 10 → tickPeriod t < tickPeriod s := by
  refine ⟨rfl, rfl, ?_⟩
  intro s h1 h10
  refine ⟨rfl, by unfold tickPeriod; omega, ?_⟩
  intro t hst ht10
  unfold tickPeriod
  omega

/-- Witness for `tickPeriod_correct` at speeds `3` and `4`. -/
theorem tickPeriod_correct_witness :
    0 < tickPeriod 3 ∧ tickPeriod 4 < tickPeriod 3 :=
  ⟨(tickPeriod_correct.2.2 3 (by decide) (by decide)).2.1,
   (tickPeriod_correct.2.2 3 (by decide) (by decide)).2.2 4 (by decide) (by decide)⟩

/-- C3: a tick in the Scrolling state whose scroll offset has reached
`scrollHeight − clientHeight` deactivates scrolling and clears the active
line index, and changes nothing else on that tick: the offset and the speed
are untouched, for every speed and every line layout. -/
theorem tick_boundary (env : ScrollEnv) (s : ScrollState)
    (hscroll : s.isScrolling = true)
    (hb : s.scrollTop ≥ env.scrollHeight - env.clientHeight) :
    tick env s = { s with isScrolling := false, currentLineIndex := -1 } := by
  unfold tick
  rw [if_pos hb]

/-- Witness for `tick_boundary` at a concrete boundary state. -/
theorem tick_boundary_witness :
    tick ⟨100, 40, []⟩ ⟨true, 60, 3, 2⟩ = ⟨false, 60, 3, -1⟩ :=
  tick_boundary ⟨100, 40, []⟩ ⟨true, 60, 3, 2⟩ rfl (by decide)

/-- Unfolding equation for `findIndex` on a cons cell. -/
theorem findIndex_cons {α : Type} (p : α → Bool) (l : α) (ls : List α) :
    findIndex p (l :: ls)
      = if p l then 0 else if findIndex p ls = -1 then -1 else findIndex p ls + 1 :=
  rfl

/-- The result of `findIndex` always lies between `-1` and `length - 1`. -/
theorem findIndex_bound {α : Type} (p : α → Bool) (ls : List α) :
    -1 ≤ findIndex p ls ∧ findIndex p ls ≤ (ls.length : ℤ) - 1 := by
  induction ls with
  | nil => exact ⟨le_refl _, by simp [findIndex]⟩
  | cons l ls ih =>
    obtain ⟨ih1, ih2⟩ := ih
    rw [findIndex_cons]
    simp only [List.length_cons]
    by_cases hp : p l = true
    · rw [if_pos hp]
      omega
    · rw [if_neg hp]
      by_cases hm : findIndex p ls = -1
      · rw [if_pos hm]
        omega
      · rw [if_neg hm]
        omega

/-- The scan returns `-1` exactly when no element satisfies the predicate. -/
theorem findIndex_eq_neg_one {α : Type} (p : α → Bool) (ls : List α) :
    findIndex p ls = -1 ↔ ∀ l ∈ ls, p l = false := by
  induction ls with
  | nil => simp [findIndex]
  | cons l ls ih =>
    rw [findIndex_cons]
    by_cases hp : p l = true
    · rw [if_pos hp]
      constructor
      · intro h
        exact absurd h (by omega)
      · intro h
        have hl := h l (List.mem_cons_self l ls)
        rw [hp] at hl
        exact absurd hl (by decide)
    · rw [if_neg hp]
      have hpl : p l = false := Bool.eq_false_iff.mpr hp
      by_cases hm : findIndex p ls = -1
      · rw [if_pos hm]
        constructor
        · intro _ x hx
          rcases List.mem_cons.mp hx with rfl | hx
          · exact hpl
          · exact ih.mp hm x hx
        · intro _
          rfl
      · rw [if_neg hm]
        have hb := (findIndex_bound p ls).1
        constructor
        · intro h
          exact absurd h (by omega)
        · intro h
          exact absurd (ih.mpr fun x hx => h x (List.mem_cons_of_mem l hx)) hm

/-- When the scan succeeds it returns the position of the first element
satisfying the predicate: that element satisfies it and all earlier ones
fail it. -/
theorem findIndex_first {α : Type} (p : α → Bool) (ls : List α)
    (h : findIndex p ls ≠ -1) :
    ∃ (i : ℕ) (hi : i < ls.length),
      findIndex p ls = (i : ℤ) ∧ p (ls.get ⟨i, hi⟩) = true ∧
      ∀ (j : ℕ) (hj : j < ls.length), j < i → p (ls.get ⟨j, hj⟩) = false := by
  induction ls with
  | nil => exact absurd rfl h
  | cons l ls ih =>
    rw [findIndex_cons] at h ⊢
    by_cases hp : p l = true
    · rw [if_pos hp]
      exact ⟨0, Nat.succ_pos _, rfl, hp,
        fun j hj hj0 => absurd hj0 (Nat.not_lt_zero j)⟩
    · rw [if_neg hp] at h ⊢
      by_cases hm : findIndex p ls = -1
      · rw [if_pos hm] at h
        exact absurd rfl h
      · rw [if_neg hm] at h ⊢
        obtain ⟨i, hi, heq, hpi, hfirst⟩ := ih hm
        refine ⟨i + 1, Nat.succ_lt_succ hi, ?_, hpi, ?_⟩
        · rw [heq]
          push_cast
          ring
        · intro j hj hj1
          cases j with
          | zero => exact Bool.eq_false_iff.mpr hp
          | succ j => exact hfirst j (Nat.lt_of_succ_lt_succ hj) (Nat.lt_of_succ_lt_succ hj1)

/-- If every element satisfying `q` also satisfies `p`, the first `p`-match
comes no later than the first `q`-match, and a failed `p`-scan forces a
failed `q`-scan. -/
theorem findIndex_mono {α : Type} (p q : α → Bool) (ls : List α)
    (himp : ∀ l, q l = true → p l = true) :
    (findIndex p ls = -1 → findIndex q ls = -1) ∧
    (findIndex q ls ≠ -1 → findIndex p ls ≠ -1 ∧ findIndex p ls ≤ findIndex q ls) := by
  induction ls with
  | nil => exact ⟨fun h => h, fun h => absurd rfl h⟩
  | cons l ls ih =>
    rw [findIndex_cons p l ls, findIndex_cons q l ls]
    have hbp := findIndex_bound p ls
    have hbq := findIndex_bound q ls
    by_cases hq : q l = true
    · rw [if_pos (himp l hq), if_pos hq]
      exact ⟨fun h => h, fun _ => ⟨by omega, le_refl 0⟩⟩
    · rw [if_neg hq]
      by_cases hp : p l = true
      · rw [if_pos hp]
        constructor
        · intro h
          exact absurd h (by omega)
        · intro hne
          by_cases hmq : findIndex q ls = -1
          · rw [if_pos hmq] at hne ⊢
            exact absurd rfl hne
          · rw [if_neg hmq] at hne ⊢
            exact ⟨by omega, by omega⟩
      · rw [if_neg hp]
        constructor
        · intro h
          have hfp : findIndex p ls = -1 := by
            by_cases hmp : findIndex p ls = -1
            · exact hmp
            · rw [if_neg hmp] at h
              omega
          rw [if_pos (ih.1 hfp)]
        · intro hne
          have hfq : findIndex q ls ≠ -1 := by
            intro hc
            rw [if_pos hc] at hne
            exact hne rfl
          obtain ⟨hfp, hle⟩ := ih.2 hfq
          rw [if_neg hfp, if_neg hfq]
          exact ⟨by omega, by omega⟩

/-- Raising the scroll position only shrinks the set of lines passing the
active-zone test. -/
theorem hits_antitone (clientHeight top top' : ℤ) (l : Line)
    (h : top ≤ top') (hl : hits clientHeight top' l = true) :
    hits clientHeight top l = true := by
  simp only [hits, decide_eq_true_eq] at hl ⊢
  have hc : (top : ℚ) ≤ (top' : ℚ) := by exact_mod_cast h
  linarith

/-- When the scan fails on a nonempty line list the computed index is the
last line. -/
theorem newCurrentIndex_of_none (env : ScrollEnv) (top : ℤ)
    (hm : findIndex (hits env.clientHeight top) env.lines = -1)
    (hlen : 0 < env.lines.length) :
    newCurrentIndex env top = (env.lines.length : ℤ) - 1 := by
  unfold newCurrentIndex
  rw [if_pos ⟨hm, hlen⟩]

/-- When the scan succeeds the computed index is the scan result. -/
theorem newCurrentIndex_of_found (env : ScrollEnv) (top : ℤ)
    (hm : findIndex (hits env.clientHeight top) env.lines ≠ -1) :
    newCurrentIndex env top = findIndex (hits env.clientHeight top) env.lines := by
  unfold newCurrentIndex
  rw [if_neg (fun hc => hm hc.1)]

/-- With no rendered lines the computed index is `-1`. -/
theorem newCurrentIndex_of_nil (env : ScrollEnv) (top : ℤ)
    (hnil : env.lines = []) :
    newCurrentIndex env top = -1 := by
  unfold newCurrentIndex
  rw [hnil]
  simp [findIndex]

/-- The freshly computed active index is monotone in the scroll position. -/
theorem newCurrentIndex_mono (env : ScrollEnv) (top top' : ℤ) (h : top ≤ top') :
    newCurrentIndex env top ≤ newCurrentIndex env top' := by
  have hmono := findIndex_mono (hits env.clientHeight top) (hits env.clientHeight top')
    env.lines (fun l hl => hits_antitone env.clientHeight top top' l h hl)
  have hbp := findIndex_bound (hits env.clientHeight top) env.lines
  by_cases hnil : env.lines = []
  · rw [newCurrentIndex_of_nil env top hnil, newCurrentIndex_of_nil env top' hnil]
  · have hlen : env.lines.length > 0 := List.length_pos.mpr hnil
    by_cases hq : findIndex (hits env.clientHeight top') env.lines = -1
    · rw [newCurrentIndex_of_none env top' hq hlen]
      by_cases hp : findIndex (hits env.clientHeight top) env.lines = -1
      · rw [newCurrentIndex_of_none env top hp hlen]
      · rw [newCurrentIndex_of_found env top hp]
        omega
    · obtain ⟨hnp, hle⟩ := hmono.2 hq
      rw [newCurrentIndex_of_found env top hnp, newCurrentIndex_of_found env top' hq]
      exact hle

/-- With at least one rendered line the freshly computed index is a valid
selection (never `-1`). -/
theorem newCurrentIndex_nonneg (env : ScrollEnv) (top : ℤ)
    (hlen : 0 < env.lines.length) :
    0 ≤ newCurrentIndex env top := by
  have hb := findIndex_bound (hits env.clientHeight top) env.lines
  by_cases hm : findIndex (hits env.clientHeight top) env.lines = -1
  · rw [newCurrentIndex_of_none env top hm hlen]
    omega
  · rw [newCurrentIndex_of_found env top hm]
    omega

/-- The active-zone test, as an equivalent integer comparison (clearing the
exact division by four); used to evaluate concrete instances. -/
theorem hits_eq_intTest (ch top : ℤ) (l : Line) :
    hits ch top l = decide (4 * top + ch < 4 * (l.offsetTop + l.offsetHeight)) := by
  unfold hits
  rw [decide_eq_decide, gt_iff_lt]
  constructor
  · intro h
    have h2 : ((4 * top + ch : ℤ) : ℚ) < ((4 * (l.offsetTop + l.offsetHeight) : ℤ) : ℚ) := by
      push_cast
      linarith
    exact_mod_cast h2
  · intro h
    have h2 : ((4 * top + ch : ℤ) : ℚ) < ((4 * (l.offsetTop + l.offsetHeight) : ℤ) : ℚ) := by
      exact_mod_cast h
    push_cast at h2
    linarith

/-- A tick never turns scrolling on: a still-scrolling post-tick state came
from a scrolling pre-tick state via the non-boundary branch. -/
theorem tick_isScrolling_true (env : ScrollEnv) (s : ScrollState)
    (h : (tick env s).isScrolling = true) :
    s.isScrolling = true ∧ ¬ s.scrollTop ≥ env.scrollHeight - env.clientHeight := by
  unfold tick at h
  by_cases hb : s.scrollTop ≥ env.scrollHeight - env.clientHeight
  · rw [if_pos hb] at h
    exact absurd h (by simp)
  · rw [if_neg hb] at h
    exact ⟨h, hb⟩

/-- Field-by-field description of a non-boundary tick. -/
theorem tick_nonboundary (env : ScrollEnv) (s : ScrollState)
    (hnb : ¬ s.scrollTop ≥ env.scrollHeight - env.clientHeight) :
    (tick env s).isScrolling = s.isScrolling ∧
    (tick env s).scrollTop = s.scrollTop + 1 ∧
    (tick env s).scrollSpeed = s.scrollSpeed ∧
    (tick env s).currentLineIndex =
      (if newCurrentIndex env (s.scrollTop + 1) ≠ -1 ∧
          newCurrentIndex env (s.scrollTop + 1) ≠ s.currentLineIndex then
        newCurrentIndex env (s.scrollTop + 1)
      else s.currentLineIndex) := by
  unfold tick
  rw [if_neg hnb]
  exact ⟨rfl, rfl, rfl, rfl⟩

/-- On a non-boundary tick with at least one line, the stored index always
becomes the freshly computed one (the guard only skips the redundant write
when they already agree). -/
theorem tick_index_pos (env : ScrollEnv) (s : ScrollState)
    (hnb : ¬ s.scrollTop ≥ env.scrollHeight - env.clientHeight)
    (hlen : 0 < env.lines.length) :
    (tick env s).currentLineIndex = newCurrentIndex env (s.scrollTop + 1) := by
  rw [(tick_nonboundary env s hnb).2.2.2]
  by_cases he : newCurrentIndex env (s.scrollTop + 1) = s.currentLineIndex
  · rw [if_neg (fun hc => hc.2 he)]
    exact he.symm
  · have hne : newCurrentIndex env (s.scrollTop + 1) ≠ -1 := by
      have := newCurrentIndex_nonneg env (s.scrollTop + 1) hlen
      omega
    rw [if_pos ⟨hne, he⟩]

/-- On a non-boundary tick with no rendered lines, the stored index is
retained. -/
theorem tick_index_nil (env : ScrollEnv) (s : ScrollState)
    (hnb : ¬ s.scrollTop ≥ env.scrollHeight - env.clientHeight)
    (hnil : env.lines = []) :
    (tick env s).currentLineIndex = s.currentLineIndex := by
  rw [(tick_nonboundary env s hnb).2.2.2, newCurrentIndex_of_nil env _ hnil]
  rw [if_neg (fun hc => hc.1 rfl)]

/-- C4: on every non-boundary tick the offset advances by one and the newly
computed active line is the first line in order whose vertical offset plus
height exceeds the active-zone threshold, falling back to the last line when
no line qualifies and lines exist; the stored index is then updated exactly
when this computed index is a valid selection differing from the previous
one, and is otherwise retained. -/
theorem tick_active_line (env : ScrollEnv) (s : ScrollState)
    (hnb : ¬ s.scrollTop ≥ env.scrollHeight - env.clientHeight) :
    (tick env s).scrollTop = s.scrollTop + 1 ∧
    ((∃ (i : ℕ) (hi : i < env.lines.length),
        newCurrentIndex env (s.scrollTop + 1) = (i : ℤ) ∧
        hits env.clientHeight (s.scrollTop + 1) (env.lines.get ⟨i, hi⟩) = true ∧
        ∀ (j : ℕ) (hj : j < env.lines.length), j < i →
          hits env.clientHeight (s.scrollTop + 1) (env.lines.get ⟨j, hj⟩) = false) ∨
      ((∀ l ∈ env.lines, hits env.clientHeight (s.scrollTop + 1) l = false) ∧
        ((0 < env.lines.length ∧
            newCurrentIndex env (s.scrollTop + 1) = (env.lines.length : ℤ) - 1) ∨
          (env.lines.length = 0 ∧ newCurrentIndex env (s.scrollTop + 1) = -1)))) ∧
    (tick env s).currentLineIndex =
      (if newCurrentIndex env (s.scrollTop + 1) ≠ -1 ∧
          newCurrentIndex env (s.scrollTop + 1) ≠ s.currentLineIndex then
        newCurrentIndex env (s.scrollTop + 1)
      else s.currentLineIndex) := by
  obtain ⟨h1, h2, h3, h4⟩ := tick_nonboundary env s hnb
  refine ⟨h2, ?_, h4⟩
  by_cases hm : findIndex (hits env.clientHeight (s.scrollTop + 1)) env.lines = -1
  · right
    refine ⟨(findIndex_eq_neg_one _ _).mp hm, ?_⟩
    rcases Nat.eq_zero_or_pos env.lines.length with hz | hpos
    · right
      have hnil : env.lines = [] := List.length_eq_zero.mp hz
      exact ⟨hz, newCurrentIndex_of_nil env _ hnil⟩
    · left
      exact ⟨hpos, newCurrentIndex_of_none env _ hm hpos⟩
  · left
    obtain ⟨i, hi, heq, hpi, hfirst⟩ := findIndex_first _ _ hm
    refine ⟨i, hi, ?_, hpi, hfirst⟩
    rw [newCurrentIndex_of_found env _ hm]
    exact heq

/-- Witness for `tick_active_line` at a concrete non-boundary state. -/
theorem tick_active_line_witness :
    (tick ⟨100, 8, [⟨0, 10⟩, ⟨10, 10⟩, ⟨20, 10⟩]⟩ ⟨true, 0, 3, -1⟩).scrollTop = 0 + 1 :=
  (tick_active_line ⟨100, 8, [⟨0, 10⟩, ⟨10, 10⟩, ⟨20, 10⟩]⟩ ⟨true, 0, 3, -1⟩ (by decide)).1

/-- Scrolling persists backwards: if the state is still scrolling after `k`
ticks it was scrolling after every earlier tick. -/
theorem tickN_scrolling_down (env : ScrollEnv) (s : ScrollState) :
    ∀ k j, j ≤ k → (tickN env k s).isScrolling = true →
      (tickN env j s).isScrolling = true := by
  intro k
  induction k with
  | zero =>
    intro j hj h
    have hj0 : j = 0 := Nat.le_zero.mp hj
    rw [hj0]
    exact h
  | succ k ih =>
    intro j hj h
    have hk : (tickN env k s).isScrolling = true :=
      (tick_isScrolling_true env (tickN env k s) h).1
    rcases Nat.lt_or_ge j (k + 1) with hlt | hge
    · exact ih j (Nat.lt_succ_iff.mp hlt) hk
    · have hjk : j = k + 1 := le_antisymm hj hge
      rw [hjk]
      exact h

/-- While still scrolling after `k` ticks, the offset has advanced by exactly
`k`, and the stored index after at least one tick is determined: retained
with no lines, and the freshly computed index otherwise. -/
theorem tickN_progress (env : ScrollEnv) (s : ScrollState) :
    ∀ k, (tickN env k s).isScrolling = true →
      (tickN env k s).scrollTop = s.scrollTop + (k : ℤ) ∧
      (1 ≤ k →
        (env.lines = [] → (tickN env k s).currentLineIndex = s.currentLineIndex) ∧
        (0 < env.lines.length →
          (tickN env k s).currentLineIndex = newCurrentIndex env (s.scrollTop + (k : ℤ)))) := by
  intro k
  induction k with
  | zero =>
    intro _
    exact ⟨by simp [tickN], fun h1 => absurd h1 (by omega)⟩
  | succ k ih =>
    intro h
    obtain ⟨hsc, hnb⟩ := tick_isScrolling_true env (tickN env k s) h
    obtain ⟨htop, hidx⟩ := ih hsc
    constructor
    · show (tick env (tickN env k s)).scrollTop = _
      rw [(tick_nonboundary env _ hnb).2.1, htop]
      push_cast
      ring
    · intro _
      constructor
      · intro hnil
        show (tick env (tickN env k s)).currentLineIndex = _
        rw [tick_index_nil env _ hnb hnil]
        rcases Nat.eq_zero_or_pos k with hz | hk
        · rw [hz]
          rfl
        · exact (hidx hk).1 hnil
      · intro hlen
        show (tick env (tickN env k s)).currentLineIndex = _
        rw [tick_index_pos env _ hnb hlen, htop]
        congr 1
        push_cast
        ring

/-- C5: with a fixed line layout and no content reset, across any run of
consecutive ticks that keeps the synchronizer in the Scrolling state, the
stored active line index is monotonically non-decreasing. -/
theorem activeLineIndex_monotone (env : ScrollEnv) (s : ScrollState)
    (n m : ℕ) (hn : 1 ≤ n) (hnm : n ≤ m)
    (hm : (tickN env m s).isScrolling = true) :
    (tickN env n s).currentLineIndex ≤ (tickN env m s).currentLineIndex := by
  have hsn : (tickN env n s).isScrolling = true := tickN_scrolling_down env s m n hnm hm
  obtain ⟨htopn, hidxn⟩ := tickN_progress env s n hsn
  obtain ⟨htopm, hidxm⟩ := tickN_progress env s m hm
  by_cases hnil : env.lines = []
  · rw [(hidxn hn).1 hnil, (hidxm (le_trans hn hnm)).1 hnil]
  · have hlen : 0 < env.lines.length := List.length_pos.mpr hnil
    rw [(hidxn hn).2 hlen, (hidxm (le_trans hn hnm)).2 hlen]
    exact newCurrentIndex_mono env _ _ (by omega)

/-- Witness for `activeLineIndex_monotone` over two concrete ticks. -/
theorem activeLineIndex_monotone_witness :
    (tickN ⟨100, 8, [⟨0, 10⟩, ⟨10, 10⟩, ⟨20, 10⟩]⟩ 1 ⟨true, 0, 3, -1⟩).currentLineIndex ≤
      (tickN ⟨100, 8, [⟨0, 10⟩, ⟨10, 10⟩, ⟨20, 10⟩]⟩ 2 ⟨true, 0, 3, -1⟩).currentLineIndex :=
  activeLineIndex_monotone ⟨100, 8, [⟨0, 10⟩, ⟨10, 10⟩, ⟨20, 10⟩]⟩ ⟨true, 0, 3, -1⟩ 1 2
    (by decide) (by decide)
    (by simp [tickN, tick, newCurrentIndex, findIndex, hits_eq_intTest])

/-- The freshly computed index is always `-1` or a valid position in the
current line list. -/
theorem newCurrentIndex_cases (env : ScrollEnv) (top : ℤ) :
    newCurrentIndex env top = -1 ∨
      (0 ≤ newCurrentIndex env top ∧
        newCurrentIndex env top < (env.lines.length : ℤ)) := by
  by_cases hnil : env.lines = []
  · left
    exact newCurrentIndex_of_nil env top hnil
  · have hlen : 0 < env.lines.length := List.length_pos.mpr hnil
    have hb := findIndex_bound (hits env.clientHeight top) env.lines
    by_cases hm : findIndex (hits env.clientHeight top) env.lines = -1
    · right
      rw [newCurrentIndex_of_none env top hm hlen]
      omega
    · right
      rw [newCurrentIndex_of_found env top hm]
      omega

/-- A tick preserves validity of the stored active line index. -/
theorem tick_preserves_index (env : ScrollEnv) (s : ScrollState)
    (h : s.currentLineIndex = -1 ∨
      (0 ≤ s.currentLineIndex ∧ s.currentLineIndex < (env.lines.length : ℤ))) :
    (tick env s).currentLineIndex = -1 ∨
      (0 ≤ (tick env s).currentLineIndex ∧
        (tick env s).currentLineIndex < (env.lines.length : ℤ)) := by
  by_cases hb : s.scrollTop ≥ env.scrollHeight - env.clientHeight
  · left
    unfold tick
    rw [if_pos hb]
  · rw [(tick_nonboundary env s hb).2.2.2]
    by_cases hc : newCurrentIndex env (s.scrollTop + 1) ≠ -1 ∧
        newCurrentIndex env (s.scrollTop + 1) ≠ s.currentLineIndex
    · rw [if_pos hc]
      rcases newCurrentIndex_cases env (s.scrollTop + 1) with h1 | h1
      · exact absurd h1 hc.1
      · right
        exact h1
    · rw [if_neg hc]
      exact h

/-- C1 (code bug exhibit): the state reached by submitting a search, opening
a favorite while the lookup is in flight, starting karaoke, ticking once
(active index 2), and then letting the in-flight result land as a one-line
layout is reachable, yet its active line index is 2 — neither "none" nor a
valid index into the currently displayed one-line sequence. The unguarded
result application of `handleSearch` (src/index.tsx lines 154-160) retains
the previous result's index against the new content, violating the
invariant the claim states. -/
theorem staleIndex_reachable :
    Reachable staleArrivalState ∧
    staleArrivalState.scroll.currentLineIndex = 2 ∧
    staleArrivalState.env.lines.length = 1 ∧
    ¬(staleArrivalState.scroll.currentLineIndex = -1 ∨
      (0 ≤ staleArrivalState.scroll.currentLineIndex ∧
        staleArrivalState.scroll.currentLineIndex < (staleArrivalState.env.lines.length : ℤ))) := by
  have h4 : preTickState
      = ⟨"t", "x", "", [], ⟨true, 0, 3, -1⟩, ⟨100, 8, [⟨0, 1⟩, ⟨1, 1⟩, ⟨2, 30⟩]⟩⟩ := rfl
  have h5 : tickedState
      = ⟨"t", "x", "", [], ⟨true, 1, 3, 2⟩, ⟨100, 8, [⟨0, 1⟩, ⟨1, 1⟩, ⟨2, 30⟩]⟩⟩ := by
    unfold tickedState
    rw [h4]
    simp [tick, newCurrentIndex, findIndex, hits_eq_intTest]
  have hstale : staleArrivalState
      = ⟨"t", "z", "", [], ⟨true, 1, 3, 2⟩, ⟨20, 8, [⟨0, 10⟩]⟩⟩ := by
    unfold staleArrivalState applyLyrics
    rw [h5]
    rfl
  refine ⟨?_, by rw [hstale], by rw [hstale]; rfl, by rw [hstale]; decide⟩
  exact Reachable.lyricsArrive tickedState "z" ⟨20, 8, [⟨0, 10⟩]⟩
    (Reachable.stepTick preTickState
      (Reachable.karaoke _
        (Reachable.favOpen _ ⟨"t", "x"⟩ ⟨100, 8, [⟨0, 1⟩, ⟨1, 1⟩, ⟨2, 30⟩]⟩
          (Reachable.searchStart _
            (Reachable.editTerm _ "a" (Reachable.init [])))))
      rfl)

/-- C6: starting a (non-blank) search or opening a favorite, from any prior
state — scrolling included — forces Idle, resets the scroll offset to 0 and
clears the active line index. -/
theorem contentReset_stops_scroll (st : AppState) (fav : Favorite) (newEnv : ScrollEnv)
    (hterm : jsTrim st.searchTerm.data ≠ []) :
    ((handleSearchStart st).scroll.isScrolling = false ∧
      (handleSearchStart st).scroll.scrollTop = 0 ∧
      (handleSearchStart st).scroll.currentLineIndex = -1) ∧
    ((viewFavorite fav newEnv st).scroll.isScrolling = false ∧
      (viewFavorite fav newEnv st).scroll.scrollTop = 0 ∧
      (viewFavorite fav newEnv st).scroll.currentLineIndex = -1) := by
  refine ⟨?_, rfl, rfl, rfl⟩
  unfold handleSearchStart
  rw [if_neg hterm]
  exact ⟨rfl, rfl, rfl⟩

/-- Witness for `contentReset_stops_scroll` at a concrete scrolling state. -/
theorem contentReset_stops_scroll_witness :
    (handleSearchStart
      { searchTerm := "a", lyrics := "x", error := "", favorites := [],
        scroll := ⟨true, 5, 3, 1⟩,
        env := ⟨30, 10, [⟨0, 15⟩, ⟨15, 15⟩]⟩ }).scroll.isScrolling = false :=
  (contentReset_stops_scroll
    { searchTerm := "a", lyrics := "x", error := "", favorites := [],
      scroll := ⟨true, 5, 3, 1⟩,
      env := ⟨30, 10, [⟨0, 15⟩, ⟨15, 15⟩]⟩ }
    ⟨"t", "l"⟩ ⟨0, 0, []⟩ (by decide)).1.1

/-- The membership test fails exactly when no stored entry has the term. -/
theorem isFavorite_eq_false (favs : List Favorite) (term : String)
    (h : ∀ f ∈ favs, f.term ≠ term) :
    isFavorite favs term = false := by
  unfold isFavorite
  rw [Bool.eq_false_iff]
  intro hc
  rw [List.any_eq_true] at hc
  obtain ⟨f, hf, hbeq⟩ := hc
  exact h f hf (by simpa using hbeq)

/-- Filtering out a term that no entry carries changes nothing. -/
theorem filter_term_eq_self (favs : List Favorite) (term : String)
    (h : ∀ f ∈ favs, f.term ≠ term) :
    favs.filter (fun fav => fav.term != term) = favs := by
  rw [List.filter_eq_self]
  intro f hf
  simpa using h f hf

/-- Toggling an absent term (with a nonempty term and lyrics) appends the
displayed pair. -/
theorem toggleFavorite_absent (term lyrics : String) (favs : List Favorite)
    (hg : ¬(term = "" ∨ lyrics = "")) (h : ∀ f ∈ favs, f.term ≠ term) :
    toggleFavorite term lyrics favs = favs ++ [⟨term, lyrics⟩] := by
  unfold toggleFavorite
  rw [if_neg hg, if_neg (by simp [isFavorite_eq_false favs term h])]

/-- Toggling twice restores the original sequence exactly whenever the
displayed term is absent from the collection. -/
theorem toggleFavorite_twice_absent (term lyrics : String) (favs : List Favorite)
    (h : ∀ f ∈ favs, f.term ≠ term) :
    toggleFavorite term lyrics (toggleFavorite term lyrics favs) = favs := by
  by_cases hg : term = "" ∨ lyrics = ""
  · unfold toggleFavorite
    rw [if_pos hg, if_pos hg]
  · rw [toggleFavorite_absent term lyrics favs hg h]
    unfold toggleFavorite
    rw [if_neg hg]
    have hin : isFavorite (favs ++ [⟨term, lyrics⟩]) term = true := by
      unfold isFavorite
      rw [List.any_eq_true]
      exact ⟨⟨term, lyrics⟩, by simp, by simp⟩
    rw [if_pos hin, List.filter_append, filter_term_eq_self favs term h]
    simp

/-- Counterexample to C7 as stated: with a stored favorite whose lyrics
differ from the displayed ones, toggling the displayed term twice does not
return the collection to its original value (the entry is re-appended with
the displayed lyrics). -/
theorem toggleFavorite_twice_counterexample :
    toggleFavorite "a" "new" (toggleFavorite "a" "new" [⟨"a", "old"⟩])
      = [⟨"a", "new"⟩] ∧
    toggleFavorite "a" "new" (toggleFavorite "a" "new" [⟨"a", "old"⟩])
      ≠ [⟨"a", "old"⟩] := by
  constructor
  · rfl
  · intro h
    have h1 : toggleFavorite "a" "new" (toggleFavorite "a" "new" [⟨"a", "old"⟩])
        = [⟨"a", "new"⟩] := rfl
    rw [h1] at h
    exact absurd h (by decide)

/-- C7 (amended): removing an absent term is a no-op; toggling the displayed
term twice restores the exact original sequence when the term is absent;
and when every stored entry for the displayed term already carries the
displayed lyrics, double-toggling preserves the set of stored entries
(membership is unchanged, though an entry for the term moves to the end). -/
theorem toggleFavorite_removeFavorite_amended (term lyrics t : String)
    (favs : List Favorite) :
    ((∀ f ∈ favs, f.term ≠ t) → removeFavorite t favs = favs) ∧
    ((∀ f ∈ favs, f.term ≠ term) →
      toggleFavorite term lyrics (toggleFavorite term lyrics favs) = favs) ∧
    ((∀ f ∈ favs, f.term = term → f.lyrics = lyrics) →
      ∀ g, g ∈ toggleFavorite term lyrics (toggleFavorite term lyrics favs) ↔ g ∈ favs) := by
  refine ⟨fun h => filter_term_eq_self favs t h,
    fun h => toggleFavorite_twice_absent term lyrics favs h, ?_⟩
  intro hl g
  by_cases hg : term = "" ∨ lyrics = ""
  · have h1 : toggleFavorite term lyrics favs = favs := by
      unfold toggleFavorite
      rw [if_pos hg]
    rw [h1, h1]
  · by_cases hfav : isFavorite favs term = true
    · have h1 : toggleFavorite term lyrics favs
          = favs.filter (fun fav => fav.term != term) := by
        unfold toggleFavorite
        rw [if_neg hg, if_pos hfav]
      have hfilter : ∀ f ∈ favs.filter (fun fav => fav.term != term), f.term ≠ term := by
        intro f hf
        have := (List.mem_filter.mp hf).2
        simpa using this
      have h2 : toggleFavorite term lyrics (favs.filter (fun fav => fav.term != term))
          = favs.filter (fun fav => fav.term != term) ++ [⟨term, lyrics⟩] :=
        toggleFavorite_absent term lyrics _ hg hfilter
      rw [h1, h2]
      constructor
      · intro hgmem
        rcases List.mem_append.mp hgmem with hgf | hgf
        · exact (List.mem_filter.mp hgf).1
        · have hgeq : g = ⟨term, lyrics⟩ := by simpa using hgf
          unfold isFavorite at hfav
          rw [List.any_eq_true] at hfav
          obtain ⟨f, hf, hbeq⟩ := hfav
          have hfterm : f.term = term := by simpa using hbeq
          have hfl : f.lyrics = lyrics := hl f hf hfterm
          have hfg : f = g := by
            obtain ⟨ft, fl⟩ := f
            simp only at hfterm hfl
            rw [hgeq, hfterm, hfl]
          rw [← hfg]
          exact hf
      · intro hgmem
        by_cases hgt : g.term = term
        · have hgl : g.lyrics = lyrics := hl g hgmem hgt
          apply List.mem_append.mpr
          right
          have hgeq : g = ⟨term, lyrics⟩ := by
            obtain ⟨gt, gl⟩ := g
            simp only at hgt hgl
            rw [hgt, hgl]
          simp [hgeq]
        · apply List.mem_append.mpr
          left
          exact List.mem_filter.mpr ⟨hgmem, by simpa using hgt⟩
    · have habs : ∀ f ∈ favs, f.term ≠ term := by
        intro f hf hc
        apply hfav
        unfold isFavorite
        rw [List.any_eq_true]
        exact ⟨f, hf, by simp [hc]⟩
      rw [toggleFavorite_twice_absent term lyrics favs habs]

/-- Witness for `toggleFavorite_removeFavorite_amended` on a concrete
collection. -/
theorem toggleFavorite_removeFavorite_amended_witness :
    removeFavorite "x" [(⟨"a", "b"⟩ : Favorite)] = [⟨"a", "b"⟩] :=
  (toggleFavorite_removeFavorite_amended "t" "l" "x" [⟨"a", "b"⟩]).1 (by decide)

/-- The hex digits the escaper emits decode back to their value. -/
theorem parseHexDigit_hexDigit : ∀ n : ℕ, n < 16 → parseHexDigit (hexDigit n) = some n := by
  decide

/-- The string-body parser inverts the character escaper: parsing an escaped
content followed by a closing quote yields the original characters. -/
theorem parseStringBody_encode (cs : List Char) (rest : List Char) :
    parseStringBody ((cs.map encodeChar).flatten ++ '"' :: rest) = some (cs, rest) := by
  induction cs with
  | nil =>
    show parseStringBody ('"' :: rest) = some ([], rest)
    rw [parseStringBody.eq_def]
    simp
  | cons c cs ih =>
    rw [List.map_cons, List.flatten_cons, List.append_assoc]
    by_cases h1 : c = '"'
    · subst h1
      rw [show encodeChar '"' = ['\\', '"'] from rfl]
      simp only [List.cons_append, List.nil_append]
      rw [parseStringBody.eq_def]
      simp [decodeEscape, ih]
    · by_cases h2 : c = '\\'
      · subst h2
        rw [show encodeChar '\\' = ['\\', '\\'] from rfl]
        simp only [List.cons_append, List.nil_append]
        rw [parseStringBody.eq_def]
        simp [decodeEscape, ih]
      · by_cases h3 : c = '\x08'
        · subst h3
          rw [show encodeChar '\x08' = ['\\', 'b'] from rfl]
          simp only [List.cons_append, List.nil_append]
          rw [parseStringBody.eq_def]
          simp [decodeEscape, ih]
        · by_cases h4 : c = '\x0c'
          · subst h4
            rw [show encodeChar '\x0c' = ['\\', 'f'] from rfl]
            simp only [List.cons_append, List.nil_append]
            rw [parseStringBody.eq_def]
            simp [decodeEscape, ih]
          · by_cases h5 : c = '\n'
            · subst h5
              rw [show encodeChar '\n' = ['\\', 'n'] from rfl]
              simp only [List.cons_append, List.nil_append]
              rw [parseStringBody.eq_def]
              simp [decodeEscape, ih]
            · by_cases h6 : c = '\r'
              · subst h6
                rw [show encodeChar '\r' = ['\\', 'r'] from rfl]
                simp only [List.cons_append, List.nil_append]
                rw [parseStringBody.eq_def]
                simp [decodeEscape, ih]
              · by_cases h7 : c = '\t'
                · subst h7
                  rw [show encodeChar '\t' = ['\\', 't'] from rfl]
                  simp only [List.cons_append, List.nil_append]
                  rw [parseStringBody.eq_def]
                  simp [decodeEscape, ih]
                · by_cases h8 : c.toNat < 32
                  · have henc : encodeChar c
                        = ['\\', 'u', '0', '0', hexDigit (c.toNat / 16),
                            hexDigit (c.toNat % 16)] := by
                      unfold encodeChar
                      rw [if_neg h1, if_neg h2, if_neg h3, if_neg h4, if_neg h5, if_neg h6,
                        if_neg h7, if_pos h8]
                    have hhi : c.toNat / 16 < 16 := by omega
                    have hlo : c.toNat % 16 < 16 := Nat.mod_lt _ (by norm_num)
                    have hp0 : parseHexDigit '0' = some 0 := by decide
                    rw [henc]
                    simp only [List.cons_append, List.nil_append]
                    rw [parseStringBody.eq_def]
                    simp [hp0, parseHexDigit_hexDigit _ hhi,
                      parseHexDigit_hexDigit _ hlo, ih]
                    rw [show c.toNat / 16 * 16 + c.toNat % 16 = c.toNat from by omega,
                      Char.ofNat_toNat]
                  · have henc : encodeChar c = [c] := by
                      unfold encodeChar
                      rw [if_neg h1, if_neg h2, if_neg h3, if_neg h4, if_neg h5, if_neg h6,
                        if_neg h7, if_neg h8]
                    rw [henc]
                    simp only [List.cons_append, List.nil_append]
                    rw [parseStringBody.eq_def]
                    simp only []
                    rw [if_neg h1, if_neg h2, ih]

/-- The string parser inverts the string encoder. -/
theorem parseJsonString_encodeString (s : String) (rest : List Char) :
    parseJsonString (encodeString s ++ rest) = some (s.data, rest) := by
  unfold encodeString
  simp only [List.cons_append, List.append_assoc, List.singleton_append]
  simp only [parseJsonString]
  exact parseStringBody_encode s.data rest

/-- Expected literal characters at the head of the input are consumed. -/
theorem expectChars_self (es rest : List Char) : expectChars es (es ++ rest) = some rest := by
  induction es with
  | nil => rfl
  | cons e es ih => simp [expectChars, ih]

/-- The favorite-object parser inverts the favorite encoder. -/
theorem parseFavorite_encodeFavorite (f : Favorite) (rest : List Char) :
    parseFavorite (encodeFavorite f ++ rest) = some (f, rest) := by
  simp [parseFavorite, encodeFavorite, expectChars, List.append_assoc,
    parseJsonString_encodeString]

/-- One step of the array-body parser on an encoded favorite followed by a
comma. -/
theorem parseFavoritesAux_step (fuel : ℕ) (f : Favorite) (X : List Char) :
    parseFavoritesAux (fuel + 1) (encodeFavorite f ++ ',' :: X)
      = (match parseFavoritesAux fuel X with
          | some (fs, r3) => some (f :: fs, r3)
          | none => none) := by
  simp [parseFavoritesAux, parseFavorite_encodeFavorite]

/-- The array-body parser on a final encoded favorite before the closing
bracket. -/
theorem parseFavoritesAux_last (fuel : ℕ) (f : Favorite) :
    parseFavoritesAux (fuel + 1) (encodeFavorite f ++ [']']) = some ([f], [']']) := by
  simp [parseFavoritesAux, parseFavorite_encodeFavorite]

/-- The array-body parser inverts the comma-separated body encoder, for any
sufficient fuel. -/
theorem parseFavoritesAux_encode (fs : List Favorite) :
    ∀ fuel : ℕ, fs ≠ [] → fs.length ≤ fuel →
      parseFavoritesAux fuel (encodeFavoritesBody fs ++ [']']) = some (fs, [']']) := by
  induction fs with
  | nil =>
    intro fuel hne _
    exact absurd rfl hne
  | cons f fs ih =>
    intro fuel hne hlen
    cases fuel with
    | zero => exact absurd hlen (by simp)
    | succ fuel =>
      by_cases hfs : fs = []
      · subst hfs
        simp only [encodeFavoritesBody]
        exact parseFavoritesAux_last fuel f
      · have hbody : encodeFavoritesBody (f :: fs)
            = encodeFavorite f ++ ',' :: encodeFavoritesBody fs := by
          cases fs with
          | nil => exact absurd rfl hfs
          | cons g gs => rfl
        rw [hbody, List.append_assoc, List.cons_append, parseFavoritesAux_step,
          ih fuel hfs (by simp at hlen ⊢; omega)]

/-- Each favorite contributes at least one character to the body. -/
theorem encodeFavoritesBody_length (fs : List Favorite) :
    fs.length ≤ (encodeFavoritesBody fs).length := by
  induction fs with
  | nil => simp [encodeFavoritesBody]
  | cons f fs ih =>
    cases fs with
    | nil => simp [encodeFavoritesBody, encodeFavorite]
    | cons g gs =>
      have h : encodeFavoritesBody (f :: g :: gs)
          = encodeFavorite f ++ ',' :: encodeFavoritesBody (g :: gs) := rfl
      rw [h]
      simp only [List.length_append, List.length_cons]
      have h1 : 1 ≤ (encodeFavorite f).length := by simp [encodeFavorite]
      simp at ih
      omega

/-- C8: persisting the favorites collection with `saveAll` (the JSON
encoding written to the single storage entry) and reading it back with
`loadAll` restores the favorites sequence exactly — in particular the same
set of term-lyrics pairs. -/
theorem loadAll_saveAll (favorites : List Favorite) :
    loadAll (some (saveAll favorites)) = favorites := by
  cases favorites with
  | nil => rfl
  | cons f fs =>
    have hlen := encodeFavoritesBody_length (f :: fs)
    have hne : encodeFavoritesBody (f :: fs) ++ [']'] ≠ [']'] := by
      intro hc
      have hlc := congrArg List.length hc
      simp only [List.length_append, List.length_cons, List.length_nil] at hlc
      simp only [List.length_cons] at hlen
      omega
    have haux := parseFavoritesAux_encode (f :: fs)
      ((encodeFavoritesBody (f :: fs) ++ [']']).length)
      (by simp)
      (by simp only [List.length_append, List.length_cons, List.length_nil] at hlen ⊢; omega)
    simp only [List.length_append, List.length_cons, List.length_nil] at haux
    unfold loadAll saveAll
    simp only [parseFavorites.eq_def]
    simp [hne, haux]

/-- Counterexample to C9 as stated: a reply that contains an `error` field
(with a falsy value) alongside a `lyrics` string is treated as Found, not
NotFound. -/
theorem processResult_counterexample :
    getField (JVal.jobj [("error", JVal.jstr ""), ("lyrics", JVal.jstr "la la")]) "error"
      = some (JVal.jstr "") ∧
    processResult "q" (JVal.jobj [("error", JVal.jstr ""), ("lyrics", JVal.jstr "la la")])
      = LookupOutcome.Found (JVal.jstr "la la") ∧
    ∀ m, processResult "q" (JVal.jobj [("error", JVal.jstr ""), ("lyrics", JVal.jstr "la la")])
      ≠ LookupOutcome.NotFound m := by
  refine ⟨rfl, rfl, ?_⟩
  intro m hm
  rw [show processResult "q" (JVal.jobj [("error", JVal.jstr ""), ("lyrics", JVal.jstr "la la")])
      = LookupOutcome.Found (JVal.jstr "la la") from rfl] at hm
  exact LookupOutcome.noConfusion hm

/-- C9 (amended): a `null` reply throws into the generic catch branch; a
reply with a truthy `error` field yields the NotFound display showing that
error value; a reply whose `error` is falsy or absent and whose `lyrics` is
falsy or absent (any non-object shape included) yields the NotFound display
with the fallback message, which names the submitted query; only a truthy
`lyrics` with falsy/absent `error` yields Found with that lyrics value. -/
theorem processResult_spec (searchTerm : String) (result : JVal) :
    (isNull result = true → processResult searchTerm result = .Thrown) ∧
    (isNull result = false → truthy (getField result "error") = true →
      processResult searchTerm result
        = .NotFound ((getField result "error").getD .jnull)) ∧
    (isNull result = false → truthy (getField result "error") = false →
      truthy (getField result "lyrics") = false →
      processResult searchTerm result = .NotFound (.jstr (notFoundMessage searchTerm)) ∧
      ∃ a b : String, notFoundMessage searchTerm = a ++ searchTerm ++ b) ∧
    (isNull result = false → truthy (getField result "error") = false →
      truthy (getField result "lyrics") = true →
      processResult searchTerm result = .Found ((getField result "lyrics").getD .jnull)) := by
  refine ⟨?_, ?_, ?_, ?_⟩
  · intro h
    unfold processResult
    rw [if_pos h]
  · intro h he
    unfold processResult
    rw [if_neg (by simp [h]), if_pos (by simp [he]), if_pos he]
  · intro h he hl
    refine ⟨?_, "Não foi possível encontrar a letra para \"",
      "\". Por favor, verifique o nome e tente novamente.", rfl⟩
    unfold processResult
    rw [if_neg (by simp [h]), if_pos (by simp [he, hl]), if_neg (by simp [he])]
  · intro h he hl
    unfold processResult
    rw [if_neg (by simp [h]), if_neg (by simp [he, hl])]

/-- Witness for `processResult_spec` at a concrete successful reply. -/
theorem processResult_spec_witness :
    processResult "imagine" (JVal.jobj [("lyrics", JVal.jstr "x")])
      = LookupOutcome.Found (JVal.jstr "x") :=
  (processResult_spec "imagine" (JVal.jobj [("lyrics", JVal.jstr "x")])).2.2.2 rfl rfl rfl

/-- Counterexample to C10 as stated: a reply wrapped in a plain markdown
code fence (no `json` tag) around valid JSON content is not stripped at
all — the fence reaches the JSON parser verbatim. -/
theorem stripFence_counterexample :
    stripFence [Char.ofNat 96, Char.ofNat 96, Char.ofNat 96, '1',
        Char.ofNat 96, Char.ofNat 96, Char.ofNat 96]
      = [Char.ofNat 96, Char.ofNat 96, Char.ofNat 96, '1',
          Char.ofNat 96, Char.ofNat 96, Char.ofNat 96] ∧
    [Char.ofNat 96, Char.ofNat 96, Char.ofNat 96, '1',
        Char.ofNat 96, Char.ofNat 96, Char.ofNat 96] ≠ ['1'] := by
  constructor
  · rfl
  · decide

/-- C10 (amended): only a fence opened with three backticks and the `json`
tag is stripped: for such a reply the parser receives exactly the trimmed
interior, so it parses the same as the unfenced content; a reply not
starting with that marker — a plain fence included — is passed through
unchanged. -/
theorem stripFence_correct (mid s : List Char)
    (hs : jsStartsWith fenceMarker s = false) :
    stripFence (fenceMarker ++ (mid ++ [Char.ofNat 96, Char.ofNat 96, Char.ofNat 96]))
      = jsTrim mid ∧
    stripFence s = s := by
  constructor
  · have hstart : jsStartsWith fenceMarker
        (fenceMarker ++ (mid ++ [Char.ofNat 96, Char.ofNat 96, Char.ofNat 96])) = true := by
      unfold jsStartsWith
      rw [List.take_left]
      exact beq_self_eq_true fenceMarker
    have hlen : (fenceMarker ++ (mid ++ [Char.ofNat 96, Char.ofNat 96, Char.ofNat 96])).length
        = mid.length + 10 := by
      simp [fenceMarker]
    unfold stripFence
    rw [if_pos hstart]
    unfold jsSubstring
    rw [hlen]
    have hc1 : jsClamp ((mid.length + 10 : ℕ) : ℤ) 7 = 7 := by
      unfold jsClamp
      omega
    have hc2 : jsClamp ((mid.length + 10 : ℕ) : ℤ) (((mid.length + 10 : ℕ) : ℤ) - 3)
        = (mid.length : ℤ) + 7 := by
      unfold jsClamp
      omega
    rw [hc1, hc2]
    have hmin : min (7 : ℤ) ((mid.length : ℤ) + 7) = 7 := by omega
    have hmax : max (7 : ℤ) ((mid.length : ℤ) + 7) = (mid.length : ℤ) + 7 := by omega
    rw [hmin, hmax]
    have h7 : ((7 : ℤ)).toNat = fenceMarker.length := rfl
    have ht : ((mid.length : ℤ) + 7 - 7).toNat = mid.length := by omega
    rw [h7, ht, List.drop_left, List.take_left]
  · unfold stripFence
    rw [if_neg (by simp [hs])]

/-- Witness for `stripFence_correct` at a concrete fenced reply. -/
theorem stripFence_correct_witness :
    stripFence (fenceMarker ++ (['1'] ++ [Char.ofNat 96, Char.ofNat 96, Char.ofNat 96]))
      = jsTrim ['1'] ∧ stripFence ['a'] = ['a'] :=
  stripFence_correct ['1'] ['a'] (by decide)

end Letrador
